import Mathlib

/-!
Verification of the session-registry core of ShellKeeper (bin/shellkeeper.py).

Modelling conventions:
* Timestamps (`datetime.now().isoformat()` strings, socket mtimes) are modelled
  as integers (`Int`).  Python compares ISO timestamp strings / `datetime`
  values; both orders are isomorphic to the integer order at the granularity
  the program uses (whole seconds for the `"%Y-%m-%d %H:%M:%S"` sort key of
  `list_sessions`, which is what we model as `mtime`).
* A metadata record is a Python dict with optional keys `created`,
  `last_attached`, `profile_name`, `profile_uuid`, `note`; we model it as a
  structure of `Option` fields (a missing key and a key stored as `None`
  behave identically under `.get`, which is the only read the program does,
  except for dict truthiness which we model via equality with `emptyRecord`).
* The metadata store (`SessionMetadata.data`, a JSON object) is an
  association list `List (String × SessionRecord)`; Python dict keys are
  unique, which theorems assume as a `Nodup` hypothesis where it matters.
* The socket directory is a list of `SockHandle`s in directory-scan order;
  each carries the outcome `live` that `is_session_alive` would report for
  it during the scan (a point-in-time probe) and its mtime.
-/

structure SessionRecord where
  created : Option Int
  last_attached : Option Int
  profile_name : Option String
  profile_uuid : Option String
  note : Option String
deriving DecidableEq

/-- The record a `metadata.get(name)` returns for an absent name: `{}`. -/
def emptyRecord : SessionRecord :=
  { created := none, last_attached := none, profile_name := none
    profile_uuid := none, note := none }

abbrev Store := List (String × SessionRecord)

/-- Key lookup in the store: `self.data.get(name)` / `name in self.data`. -/
def storeLookup : Store → String → Option SessionRecord
  | [], _ => none
  | p :: rest, n => if p.1 = n then some p.2 else storeLookup rest n

/-- `self.data.get(session_name, {})`. -/
def getRec (s : Store) (n : String) : SessionRecord :=
  (storeLookup s n).getD emptyRecord

/-- `del self.data[name]` (removes the key; unique in a real dict). -/
def storeRemove : Store → String → Store
  | [], _ => []
  | p :: rest, n => if p.1 = n then storeRemove rest n else p :: storeRemove rest n

/-- `self.data[name] = r`: replace the value at an existing key in place,
otherwise append the pair (Python dicts preserve insertion order). -/
def storeInsert : Store → String → SessionRecord → Store
  | [], n, r => [(n, r)]
  | p :: rest, n, r => if p.1 = n then (n, r) :: rest else p :: storeInsert rest n r

namespace SessionMetadata

/-- `SessionMetadata.set(session_name, profile_name, profile_uuid)`
(shellkeeper.py lines 73-85): creates the record with a fresh `created`
when absent, always refreshes `last_attached`, and updates each profile
field only when the argument is provided (`is not None`). -/
def set (s : Store) (n : String) (pn pu : Option String) (now : Int) : Store :=
  let base :=
    match storeLookup s n with
    | none => { emptyRecord with created := some now }
    | some r => r
  let r1 := { base with last_attached := some now }
  let r2 := match pn with | none => r1 | some v => { r1 with profile_name := some v }
  let r3 := match pu with | none => r2 | some v => { r2 with profile_uuid := some v }
  storeInsert s n r3

/-- `SessionMetadata.set_note` (lines 91-97): only succeeds when the record
exists; a `none` note models clearing (`"note": None`). -/
def set_note (s : Store) (n : String) (note : Option String) : Store × Bool :=
  match storeLookup s n with
  | some r => (storeInsert s n { r with note := note }, true)
  | none => (s, false)

/-- `SessionMetadata.remove` (lines 103-107): idempotent key removal. -/
def remove (s : Store) (n : String) : Store := storeRemove s n

/-- The exceptions `open(f)` / `json.load(f)` can raise on a metadata
file, by content: `ioError` (IOError/OSError from open or read),
`jsonDecodeError` (the parser rejects the text), `unicodeDecodeError`
(the file's bytes are not valid UTF-8, raised while `json.load` reads
the text), `recursionError` (deeply nested JSON exceeds the parser's
recursion limit). -/
inductive PyExn
  | ioError
  | jsonDecodeError
  | unicodeDecodeError
  | recursionError
deriving DecidableEq

/-- What the file system and the Python runtime yield when
`SessionMetadata._load` (lines 58-66) opens and parses the metadata
file: the file may be absent, reading + parsing it may raise an
exception, or it parses to a sessions mapping. -/
inductive MetadataFileState
  | absent
  | raises (e : PyExn)
  | valid (s : Store)
deriving DecidableEq

/-- `SessionMetadata._load` (lines 58-66): a missing file yields `{}`;
the `except (json.JSONDecodeError, IOError)` clause at line 64 catches
exactly those two exception classes and yields `{}`; any other
exception raised by the read or parse propagates out of `_load`
(`Except.error`), crashing `ShellKeeper.__init__`. -/
def load : MetadataFileState → Except PyExn Store
  | .absent => .ok []
  | .valid s => .ok s
  | .raises e =>
    if e = .jsonDecodeError ∨ e = .ioError then .ok [] else .error e

/-- The `{version, exported, sessions}` document of `export_data`
(lines 123-129). -/
structure ExportDoc where
  version : Nat
  exported : Int
  sessions : Store
deriving DecidableEq

/-- `SessionMetadata.export_data` (lines 123-129). -/
def exportData (s : Store) (now : Int) : ExportDoc :=
  { version := 1, exported := now, sessions := s }

/-- The loop of `SessionMetadata.import_data` (lines 136-143): walk the
exported pairs; a name already present is skipped unless `force`,
otherwise the pair is written.  Accumulates (store, imported, skipped). -/
def importGo (force : Bool) : List (String × SessionRecord) → Store → Nat → Nat → Store × Nat × Nat
  | [], st, imp, skip => (st, imp, skip)
  | p :: rest, st, imp, skip =>
    if (storeLookup st p.1).isSome && !force then
      importGo force rest st imp (skip + 1)
    else
      importGo force rest (storeInsert st p.1 p.2) (imp + 1) skip

/-- `SessionMetadata.import_data(data, force)` (lines 131-148); the
`"sessions" not in data` ValueError branch cannot arise for a typed
`ExportDoc`.  Returns (store, imported, skipped). -/
def importData (s : Store) (doc : ExportDoc) (force : Bool) : Store × Nat × Nat :=
  importGo force doc.sessions s 0 0

end SessionMetadata

/-- A socket file found in the session directory: its name (the `.sock`
stem), the point-in-time outcome of the `is_session_alive` probe on it,
and its modification time (second granularity, the `"%Y-%m-%d %H:%M:%S"`
sort key of `list_sessions`). -/
structure SockHandle where
  name : String
  live : Bool
  mtime : Int
deriving DecidableEq

/-- The world a `ShellKeeper` invocation acts on: the socket directory in
scan order plus the metadata store. -/
structure SKState where
  handles : List SockHandle
  meta : Store
deriving DecidableEq

/-- `socket_path.exists()` for `<n>.sock`, and the handle found. -/
def findHandle : List SockHandle → String → Option SockHandle
  | [], _ => none
  | h :: rest, n => if h.name = n then some h else findHandle rest n

/-- `socket_path.unlink()` for `<n>.sock`. -/
def removeHandle : List SockHandle → String → List SockHandle
  | [], _ => []
  | h :: rest, n => if h.name = n then removeHandle rest n else h :: removeHandle rest n

/-- `old_socket.rename(new_socket)`: the directory entry changes name;
liveness (the listener) and mtime are untouched. -/
def renameHandle : List SockHandle → String → String → List SockHandle
  | [], _, _ => []
  | h :: rest, old, nw =>
    (if h.name = old then { h with name := nw } else h) :: renameHandle rest old nw

/-- The handles the scan loop of `list_sessions` finds alive. -/
def liveHandles : List SockHandle → List SockHandle
  | [] => []
  | h :: rest => if h.live then h :: liveHandles rest else liveHandles rest

/-- The names the scan loop of `list_sessions` collects as dead. -/
def deadNames : List SockHandle → List String
  | [] => []
  | h :: rest => if h.live then deadNames rest else h.name :: deadNames rest

/-- `for name in dead_sessions: self.metadata.remove(name)`. -/
def removeAll : Store → List String → Store
  | s, [] => s
  | s, n :: rest => removeAll (storeRemove s n) rest

/-- The per-session dict `list_sessions` builds for an alive handle
(lines 593-600): name, socket mtime as `last_active`, and the metadata
fields read through `.get`. -/
structure SessionView where
  name : String
  last_active : Int
  profile_name : Option String
  profile_uuid : Option String
  created : Option Int
deriving DecidableEq

def mkView (st : SKState) (h : SockHandle) : SessionView :=
  { name := h.name
    last_active := h.mtime
    profile_name := (getRec st.meta h.name).profile_name
    profile_uuid := (getRec st.meta h.name).profile_uuid
    created := (getRec st.meta h.name).created }

/-- Insert into a list already sorted by `last_active` descending, before
the first element whose key is not larger — the position a stable sort
gives the element. -/
def insertByKeyDesc (x : SessionView) : List SessionView → List SessionView
  | [] => [x]
  | y :: ys =>
    if y.last_active ≤ x.last_active then x :: y :: ys else y :: insertByKeyDesc x ys

/-- `sorted(sessions, key=lambda x: x["last_active"], reverse=True)`
(line 612): Python's sort is stable, so this is the unique reordering
that is descending on the key and keeps equal-key elements in scan
order; a stable insertion sort computes exactly that. -/
def sortViewsDesc : List SessionView → List SessionView
  | [] => []
  | x :: xs => insertByKeyDesc x (sortViewsDesc xs)

/-- `ShellKeeper.list_sessions(clean_dead)` (lines 580-612): scan the
socket directory; alive handles are joined with their metadata into
views; with `clean_dead` the dead sockets are unlinked and their
metadata records removed.  Returns the sorted views and the state the
invocation leaves behind. -/
def list_sessions (st : SKState) (clean_dead : Bool) : List SessionView × SKState :=
  let views := sortViewsDesc ((liveHandles st.handles).map (mkView st))
  if clean_dead then
    (views, { handles := liveHandles st.handles
              meta := removeAll st.meta (deadNames st.handles) })
  else
    (views, st)

/-- `ShellKeeper.create_session` with an explicit name (lines 656-738):
an existing socket path declines the creation before anything is
written; otherwise the metadata is set first and the multiplexer
(dtach) creates the socket.  Profile resolution (GNOME lookup) happens
before the check and only reads. -/
def create_session (st : SKState) (n : String) (pn pu : Option String) (now : Int) :
    SKState × Bool :=
  if (findHandle st.handles n).isSome then
    (st, false)
  else
    ({ handles := st.handles ++ [{ name := n, live := true, mtime := now }]
       meta := SessionMetadata.set st.meta n pn pu now }, true)

inductive AttachOutcome
  | notFound
  | deadReclaimed
  | multiplexed
deriving DecidableEq

/-- `ShellKeeper.attach_session` (lines 740-779): missing socket is
NotFound; a socket that probes dead is unlinked, its metadata removed,
and the call fails; only an alive socket refreshes `last_attached`
(a `set` with the record's own profile fields) and hands control to
the multiplexer (`multiplexed`). -/
def attach_session (st : SKState) (n : String) (now : Int) : SKState × AttachOutcome :=
  match findHandle st.handles n with
  | none => (st, .notFound)
  | some h =>
    if h.live then
      ({ st with
         meta := SessionMetadata.set st.meta n (getRec st.meta n).profile_name
           (getRec st.meta n).profile_uuid now }, .multiplexed)
    else
      ({ handles := removeHandle st.handles n
         meta := SessionMetadata.remove st.meta n }, .deadReclaimed)

/-- `ShellKeeper.kill_session` (lines 781-792): requires the socket to
exist (alive or dead), then unlinks it and removes the metadata. -/
def kill_session (st : SKState) (n : String) : SKState × Bool :=
  if (findHandle st.handles n).isSome then
    ({ handles := removeHandle st.handles n
       meta := SessionMetadata.remove st.meta n }, true)
  else
    (st, false)

/-- The shared loop of `kill_all_sessions` / `kill_sessions_by_pattern`:
kill each listed name in turn, reporting every name the loop visited
(the Python loop appends unconditionally). -/
def killGo : List String → SKState → SKState × List String
  | [], st => (st, [])
  | n :: rest, st =>
    let st1 := (kill_session st n).1
    let r := killGo rest st1
    (r.1, n :: r.2)

/-- `ShellKeeper.kill_all_sessions` (lines 804-811): enumerate with
`clean_dead=False`, then kill each enumerated session. -/
def kill_all_sessions (st : SKState) : SKState × List String :=
  killGo ((list_sessions st false).1.map SessionView.name) st

/-- `ShellKeeper.kill_sessions_by_pattern` (lines 794-802): same loop
restricted to names matching the glob; `fnmatch` is modelled as an
abstract predicate. -/
def kill_sessions_by_pattern (st : SKState) (pat : String → Bool) : SKState × List String :=
  killGo (((list_sessions st false).1.map SessionView.name).filter pat) st

/-- The loop of `cleanup_idle_sessions` (lines 819-827): for each
enumerated session, look up `last_attached` in the current metadata;
kill exactly when it exists and is strictly before the cutoff. -/
def cleanupGo (cutoff : Int) : List SessionView → SKState → SKState × List String
  | [], st => (st, [])
  | sv :: rest, st =>
    match (getRec st.meta sv.name).last_attached with
    | some la =>
      if la < cutoff then
        let st1 := (kill_session st sv.name).1
        let r := cleanupGo cutoff rest st1
        (r.1, sv.name :: r.2)
      else
        cleanupGo cutoff rest st
    | none => cleanupGo cutoff rest st

/-- `ShellKeeper.cleanup_idle_sessions(max_idle_days)` (lines 813-828):
`cutoff = now - timedelta(days=max_idle_days)`, over the sessions
enumerated with `clean_dead=False`. -/
def cleanup_idle_sessions (st : SKState) (now days : Int) : SKState × List String :=
  cleanupGo (now - days * 86400) ((list_sessions st false).1) st

/-- `ShellKeeper.rename_session` (lines 838-861): old socket must exist,
new must not; the socket is renamed; if the old metadata record is
truthy (a non-empty dict) it is removed and re-set under the new name
with its profile fields. -/
def rename_session (st : SKState) (old nw : String) (now : Int) : SKState × Bool :=
  if (findHandle st.handles old).isNone then
    (st, false)
  else if (findHandle st.handles nw).isSome then
    (st, false)
  else
    let oldMeta := getRec st.meta old
    let meta1 :=
      if oldMeta = emptyRecord then st.meta
      else
        SessionMetadata.set (SessionMetadata.remove st.meta old) nw
          oldMeta.profile_name oldMeta.profile_uuid now
    ({ handles := renameHandle st.handles old nw, meta := meta1 }, true)

/-- The point-in-time facts `is_session_alive` (lines 555-578) consults
about one socket path: whether the path exists, what `stat` reports
(`none` models an `OSError`, `some b` models success with `S_ISSOCK`
flag `b`), and whether the non-blocking `connect` succeeds. -/
structure ProbeWorld where
  pathExists : Bool
  statOutcome : Option Bool
  connectOk : Bool
deriving DecidableEq

/-- `ShellKeeper.is_session_alive` (lines 555-578): missing path is dead;
a stat error is dead; a non-socket entry is dead; otherwise the
non-blocking connect outcome decides. -/
def is_session_alive (w : ProbeWorld) : Bool :=
  if !w.pathExists then
    false
  else
    match w.statOutcome with
    | none => false
    | some isSock => if !isSock then false else w.connectOk

/-- Modelled from the spec's words for claim C3 ("descending by
most-recent-activity timestamp ... ties broken by name"): pairwise, the
next element has a strictly smaller timestamp, or an equal timestamp and
a name that is not smaller (names compared lexicographically via their
character lists, the same order Python uses for `str`).  Defined only to
compare the code's actual ordering against the claimed one. -/
def specOrderedByTimeThenName : List SessionView → Bool
  | a :: b :: rest =>
    (decide (b.last_active < a.last_active ∨
      (a.last_active = b.last_active ∧ ¬ b.name.data < a.name.data))) &&
      specOrderedByTimeThenName (b :: rest)
  | _ => true

/-- A concrete record: created and last attached at time 0, no profile. -/
def exRecA : SessionRecord :=
  { created := some 0, last_attached := some 0, profile_name := none
    profile_uuid := none, note := none }

/-- One alive session `a`, with its metadata record. -/
def exStA : SKState :=
  { handles := [{ name := "a", live := true, mtime := 0 }], meta := [("a", exRecA)] }

/-- Two alive sessions with the same mtime, scanned in the order `b`, `a`. -/
def exStTie : SKState :=
  { handles := [{ name := "b", live := true, mtime := 100 },
                { name := "a", live := true, mtime := 100 }]
    meta := [] }

/-- The same two tied sessions as `exStTie`, scanned in the order `a`,
`b`: the same set of (name, timestamp) pairs, a different scan order. -/
def exStTie2 : SKState :=
  { handles := [{ name := "a", live := true, mtime := 100 },
                { name := "b", live := true, mtime := 100 }]
    meta := [] }

/-- A dead handle next to an alive one. -/
def exStDead : SKState :=
  { handles := [{ name := "dead1", live := false, mtime := 0 },
                { name := "live1", live := true, mtime := 5 }]
    meta := [("dead1", exRecA)] }

theorem storeLookup_insert_self (s : Store) (n : String) (r : SessionRecord) :
    storeLookup (storeInsert s n r) n = some r := by
  induction s with
  | nil => simp [storeInsert, storeLookup]
  | cons p rest ih =>
    by_cases h : p.1 = n
    · simp [storeInsert, h, storeLookup]
    · simp [storeInsert, h, storeLookup, ih]

theorem storeLookup_insert_other {m n : String} (h : m ≠ n) (s : Store) (r : SessionRecord) :
    storeLookup (storeInsert s n r) m = storeLookup s m := by
  have hnm : n ≠ m := Ne.symm h
  induction s with
  | nil => simp [storeInsert, storeLookup, hnm]
  | cons p rest ih =>
    by_cases hp : p.1 = n
    · have hpm : ¬ p.1 = m := by rw [hp]; exact hnm
      simp [storeInsert, hp, storeLookup, hnm, hpm]
    · by_cases hm : p.1 = m
      · simp [storeInsert, hp, storeLookup, hm, h]
      · simp [storeInsert, hp, storeLookup, hm, ih]

theorem storeLookup_remove_self (s : Store) (n : String) :
    storeLookup (storeRemove s n) n = none := by
  induction s with
  | nil => simp [storeRemove, storeLookup]
  | cons p rest ih =>
    by_cases h : p.1 = n <;> simp [storeRemove, h, storeLookup, ih]

theorem storeLookup_remove_other {m n : String} (h : m ≠ n) (s : Store) :
    storeLookup (storeRemove s n) m = storeLookup s m := by
  have hnm : n ≠ m := Ne.symm h
  induction s with
  | nil => simp [storeRemove]
  | cons p rest ih =>
    by_cases hp : p.1 = n
    · simp [storeRemove, hp, storeLookup, hnm, ih]
    · by_cases hm : p.1 = m
      · simp [storeRemove, hp, storeLookup, hm, h]
      · simp [storeRemove, hp, storeLookup, hm, ih]

theorem storeInsert_eq_of_lookup {s : Store} {n : String} {r : SessionRecord}
    (h : storeLookup s n = some r) : storeInsert s n r = s := by
  induction s with
  | nil => simp [storeLookup] at h
  | cons p rest ih =>
    by_cases hp : p.1 = n
    · simp only [storeLookup, if_pos hp] at h
      have h2 : p.2 = r := Option.some.inj h
      have hpair : (n, r) = p := Prod.ext_iff.mpr ⟨hp.symm, h2.symm⟩
      simp only [storeInsert, if_pos hp]
      rw [hpair]
    · simp only [storeLookup, if_neg hp] at h
      simp [storeInsert, hp, ih h]

theorem storeLookup_isSome_of_mem {s : Store} {p : String × SessionRecord}
    (h : p ∈ s) : (storeLookup s p.1).isSome = true := by
  induction s with
  | nil => simp at h
  | cons q rest ih =>
    by_cases hq : q.1 = p.1
    · simp [storeLookup, hq]
    · rcases List.mem_cons.mp h with h1 | h2
      · exact absurd (congrArg Prod.fst h1.symm) hq
      · simp [storeLookup, hq, ih h2]

theorem storeLookup_eq_of_mem_nodup {s : Store} (hnd : (s.map Prod.fst).Nodup)
    {p : String × SessionRecord} (h : p ∈ s) : storeLookup s p.1 = some p.2 := by
  induction s with
  | nil => simp at h
  | cons q rest ih =>
    rw [List.map_cons, List.nodup_cons] at hnd
    rcases List.mem_cons.mp h with h1 | h2
    · subst h1; simp [storeLookup]
    · have hq : ¬ q.1 = p.1 := by
        intro hqq
        exact hnd.1 (hqq ▸ List.mem_map_of_mem Prod.fst h2)
      simp [storeLookup, hq, ih hnd.2 h2]

theorem importGo_skip_all (l : List (String × SessionRecord)) (st : Store) (i k : Nat)
    (h : ∀ p ∈ l, (storeLookup st p.1).isSome = true) :
    SessionMetadata.importGo false l st i k = (st, i, k + l.length) := by
  induction l generalizing k with
  | nil => simp [SessionMetadata.importGo]
  | cons p rest ih =>
    have hp := h p (List.mem_cons_self p rest)
    have harith : k + 1 + rest.length = k + (rest.length + 1) := by omega
    simp [SessionMetadata.importGo, hp,
      ih (k + 1) (fun q hq => h q (List.mem_cons_of_mem p hq)), harith]

theorem importGo_overwrite_self (l : List (String × SessionRecord)) (st : Store) (i k : Nat)
    (h : ∀ p ∈ l, storeLookup st p.1 = some p.2) :
    SessionMetadata.importGo true l st i k = (st, i + l.length, k) := by
  induction l generalizing i with
  | nil => simp [SessionMetadata.importGo]
  | cons p rest ih =>
    have hp := storeInsert_eq_of_lookup (h p (List.mem_cons_self p rest))
    have harith : i + 1 + rest.length = i + (rest.length + 1) := by omega
    simp [SessionMetadata.importGo, hp,
      ih (i + 1) (fun q hq => h q (List.mem_cons_of_mem p hq)), harith]

/-- C1: when a socket handle for `n` already exists, `create_session`
returns a declined result and leaves the whole state — in particular the
metadata store and the existing record's `created` timestamp — unchanged. -/
theorem create_session_conflict_unchanged (st : SKState) (n : String)
    (pn pu : Option String) (now : Int)
    (h : (findHandle st.handles n).isSome = true) :
    create_session st n pn pu now = (st, false) ∧
    (getRec (create_session st n pn pu now).1.meta n).created = (getRec st.meta n).created := by
  simp [create_session, h]

theorem create_session_conflict_unchanged_witness :
    create_session exStA "a" none (some "u1") 99 = (exStA, false) :=
  (create_session_conflict_unchanged exStA "a" none (some "u1") 99 (by decide)).1

/-- C5: the liveness probe reports alive exactly when the path exists,
`stat` succeeds and reports a socket-type entry, and the non-blocking
connect succeeds; every error path yields dead. -/
theorem is_session_alive_iff (w : ProbeWorld) :
    is_session_alive w = true ↔
      w.pathExists = true ∧ w.statOutcome = some true ∧ w.connectOk = true := by
  rcases w with ⟨pe, so, co⟩
  rcases so with _ | b
  · cases pe <;> simp [is_session_alive]
  · cases pe <;> cases b <;> cases co <;> simp [is_session_alive]

/-- C7: importing a store's own export with `force=false` writes nothing
and skips all `N` records, leaving the store unchanged; with `force=true`
(and the dict's unique keys) it writes all `N` records; the reported
counts are exactly the written/skipped records. -/
theorem import_export_roundtrip (s : Store) (t : Int) :
    SessionMetadata.importData s (SessionMetadata.exportData s t) false = (s, 0, s.length) ∧
    ((s.map Prod.fst).Nodup →
      SessionMetadata.importData s (SessionMetadata.exportData s t) true = (s, s.length, 0)) := by
  constructor
  · have h := importGo_skip_all s s 0 0 (fun p hp => storeLookup_isSome_of_mem hp)
    simpa [SessionMetadata.importData, SessionMetadata.exportData] using h
  · intro hnd
    have h := importGo_overwrite_self s s 0 0 (fun p hp => storeLookup_eq_of_mem_nodup hnd hp)
    simpa [SessionMetadata.importData, SessionMetadata.exportData] using h

theorem import_export_roundtrip_witness :
    SessionMetadata.importData [("a", exRecA), ("b", emptyRecord)]
      (SessionMetadata.exportData [("a", exRecA), ("b", emptyRecord)] 3) true
      = ([("a", exRecA), ("b", emptyRecord)], 2, 0) :=
  (import_export_roundtrip [("a", exRecA), ("b", emptyRecord)] 3).2 (by decide)

/-- C9 counterexample: file content whose read raises an exception other
than `json.JSONDecodeError` or `IOError` — here invalid UTF-8 bytes
(`UnicodeDecodeError`) and over-deep nesting (`RecursionError`) — is not
caught by the `except` clause at line 64: `_load` propagates the
exception instead of yielding a store, so this corruption is fatal to
startup. -/
theorem metadata_load_fatal_on_uncaught :
    SessionMetadata.load (.raises .unicodeDecodeError) =
      .error SessionMetadata.PyExn.unicodeDecodeError ∧
    SessionMetadata.load (.raises .recursionError) =
      .error SessionMetadata.PyExn.recursionError := by
  constructor <;> rfl

/-- C9 (amended): loading never propagates the errors the code
anticipates — an absent file, an `IOError` on open/read, and malformed
JSON (`JSONDecodeError`) all initialize the store to the empty mapping,
and a valid file populates it; but the `except` clause catches only
those two exception classes, so any other exception raised by the read
or parse (invalid UTF-8, over-deep nesting) propagates out of `_load`
and is fatal to startup. -/
theorem metadata_load_catches_listed (fs : SessionMetadata.MetadataFileState) :
    ((fs = .absent ∨ fs = .raises .ioError ∨ fs = .raises .jsonDecodeError) →
      SessionMetadata.load fs = .ok []) ∧
    (∀ s, fs = .valid s → SessionMetadata.load fs = .ok s) ∧
    (∀ e, fs = .raises e → e ≠ .ioError → e ≠ .jsonDecodeError →
      SessionMetadata.load fs = .error e) := by
  refine ⟨?_, ?_, ?_⟩
  · rintro (rfl | rfl | rfl) <;> simp [SessionMetadata.load]
  · rintro s rfl
    simp [SessionMetadata.load]
  · rintro e rfl h1 h2
    simp [SessionMetadata.load, h1, h2]

theorem metadata_load_catches_listed_witness :
    SessionMetadata.load (.raises .jsonDecodeError) = .ok [] :=
  (metadata_load_catches_listed (.raises .jsonDecodeError)).1 (Or.inr (Or.inr rfl))

/-- C8: a handle that exists but probes dead makes `attach_session`
unlink the handle, remove the metadata record, and fail; the multiplexer
is only ever reached for a handle that probed alive (a dead session is
never resurrected). -/
theorem attach_dead_reclaims (st : SKState) (n : String) (now : Int) :
    (∀ h, findHandle st.handles n = some h → h.live = false →
      attach_session st n now =
        ({ handles := removeHandle st.handles n, meta := SessionMetadata.remove st.meta n },
          AttachOutcome.deadReclaimed)) ∧
    ((attach_session st n now).2 = AttachOutcome.multiplexed →
      ∃ h, findHandle st.handles n = some h ∧ h.live = true) := by
  constructor
  · intro h hf hl
    simp [attach_session, hf, hl]
  · intro hm
    cases hfind : findHandle st.handles n with
    | none => simp [attach_session, hfind] at hm
    | some h =>
      cases hl : h.live with
      | true => exact ⟨h, rfl, hl⟩
      | false => simp [attach_session, hfind, hl] at hm

theorem attach_dead_reclaims_witness :
    attach_session exStDead "dead1" 9 =
      ({ handles := [{ name := "live1", live := true, mtime := 5 }], meta := [] },
        AttachOutcome.deadReclaimed) := by
  have h := (attach_dead_reclaims exStDead "dead1" 9).1
    { name := "dead1", live := false, mtime := 0 } (by decide) rfl
  rw [h]
  decide

theorem set_lookup_other {m n : String} (h : m ≠ n) (s : Store) (pn pu : Option String)
    (now : Int) : storeLookup (SessionMetadata.set s n pn pu now) m = storeLookup s m := by
  simp only [SessionMetadata.set]
  exact storeLookup_insert_other h s _

theorem findHandle_rename_self {hs : List SockHandle} {old nw : String}
    (hne : old ≠ nw) : findHandle (renameHandle hs old nw) old = none := by
  induction hs with
  | nil => simp [renameHandle, findHandle]
  | cons h rest ih =>
    by_cases hh : h.name = old
    · simp [renameHandle, hh, findHandle, Ne.symm hne, ih]
    · simp [renameHandle, hh, findHandle, ih]

theorem findHandle_rename_new {hs : List SockHandle} {old nw : String}
    (hnone : findHandle hs nw = none) :
    findHandle (renameHandle hs old nw) nw =
      (findHandle hs old).map (fun h => { h with name := nw }) := by
  induction hs with
  | nil => simp [renameHandle, findHandle]
  | cons h rest ih =>
    have hhead : ¬ h.name = nw := fun hc => by simp [findHandle, hc] at hnone
    have hrest : findHandle rest nw = none := by
      simpa [findHandle, hhead] using hnone
    by_cases hh : h.name = old
    · simp [renameHandle, hh, findHandle]
    · simp [renameHandle, hh, findHandle, hhead, ih hrest]

/-- C2: `rename_session` succeeds only when the old handle exists and the
new one does not; a conflict on the new name (or a missing old name)
leaves the state entirely unchanged; on success with a truthy old record
and no record under the new name, the handle is renamed in place and the
metadata record moves: nothing is left under the old key, the profile
fields are preserved, and the timestamps are refreshed exactly as a
normal `set` on an absent key would (`last_attached` and `created` both
become the rename time). -/
theorem rename_session_spec (st : SKState) (old nw : String) (now : Int) :
    ((rename_session st old nw now).2 = true →
      (findHandle st.handles old).isSome = true ∧ findHandle st.handles nw = none) ∧
    (findHandle st.handles old = none → rename_session st old nw now = (st, false)) ∧
    ((findHandle st.handles nw).isSome = true → rename_session st old nw now = (st, false)) ∧
    (∀ r, (findHandle st.handles old).isSome = true → findHandle st.handles nw = none →
      storeLookup st.meta old = some r → r ≠ emptyRecord → storeLookup st.meta nw = none →
      (rename_session st old nw now).2 = true ∧
      (∃ h, findHandle st.handles old = some h ∧
        findHandle (rename_session st old nw now).1.handles nw = some { h with name := nw }) ∧
      findHandle (rename_session st old nw now).1.handles old = none ∧
      storeLookup (rename_session st old nw now).1.meta old = none ∧
      (getRec (rename_session st old nw now).1.meta nw).profile_name = r.profile_name ∧
      (getRec (rename_session st old nw now).1.meta nw).profile_uuid = r.profile_uuid ∧
      (getRec (rename_session st old nw now).1.meta nw).last_attached = some now ∧
      (getRec (rename_session st old nw now).1.meta nw).created = some now) := by
  refine ⟨?_, ?_, ?_, ?_⟩
  · intro hsucc
    by_cases h1 : (findHandle st.handles old).isNone
    · simp [rename_session, h1] at hsucc
    · by_cases h2 : (findHandle st.handles nw).isSome
      · simp [rename_session, h1, h2] at hsucc
      · exact ⟨by simpa [Option.isNone_iff_eq_none, Option.isSome_iff_ne_none] using h1,
          Option.not_isSome_iff_eq_none.mp h2⟩
  · intro h1
    simp [rename_session, h1]
  · intro h2
    by_cases h1 : (findHandle st.handles old).isNone
    · simp [rename_session, h1]
    · simp [rename_session, h1, h2]
  · intro r hold hnew hlk hne hlknew
    have hone : old ≠ nw := by
      intro heq
      rw [heq, hnew] at hold
      simp at hold
    obtain ⟨h, hfold⟩ := Option.isSome_iff_exists.mp hold
    have hnotnone : ¬ (findHandle st.handles old).isNone = true := by
      simp [hfold]
    have hnotsome : ¬ (findHandle st.handles nw).isSome = true := by
      simp [hnew]
    have hget : getRec st.meta old = r := by simp [getRec, hlk]
    have hmeta1 : (rename_session st old nw now).1.meta =
        SessionMetadata.set (SessionMetadata.remove st.meta old) nw
          r.profile_name r.profile_uuid now := by
      simp [rename_session, hnotnone, hnotsome, hget, hne]
    have hhandles1 : (rename_session st old nw now).1.handles =
        renameHandle st.handles old nw := by
      simp [rename_session, hnotnone, hnotsome]
    have hsucc : (rename_session st old nw now).2 = true := by
      simp [rename_session, hnotnone, hnotsome]
    have hlkrem : storeLookup (SessionMetadata.remove st.meta old) nw = none := by
      rw [SessionMetadata.remove, storeLookup_remove_other (Ne.symm hone), hlknew]
    refine ⟨hsucc, ⟨h, hfold, ?_⟩, ?_, ?_, ?_, ?_, ?_, ?_⟩
    · rw [hhandles1, findHandle_rename_new hnew, hfold]
      rfl
    · rw [hhandles1]
      exact findHandle_rename_self hone
    · rw [hmeta1, set_lookup_other hone, SessionMetadata.remove, storeLookup_remove_self]
    · rw [hmeta1]
      cases hpn : r.profile_name <;> cases hpu : r.profile_uuid <;>
        simp [SessionMetadata.set, hlkrem, getRec, storeLookup_insert_self, hpn, emptyRecord]
    · rw [hmeta1]
      cases hpn : r.profile_name <;> cases hpu : r.profile_uuid <;>
        simp [SessionMetadata.set, hlkrem, getRec, storeLookup_insert_self, hpu, emptyRecord]
    · rw [hmeta1]
      cases hpn : r.profile_name <;> cases hpu : r.profile_uuid <;>
        simp [SessionMetadata.set, hlkrem, getRec, storeLookup_insert_self, emptyRecord]
    · rw [hmeta1]
      cases hpn : r.profile_name <;> cases hpu : r.profile_uuid <;>
        simp [SessionMetadata.set, hlkrem, getRec, storeLookup_insert_self, emptyRecord]

theorem rename_session_spec_witness :
    (rename_session exStA "a" "b" 5).2 = true ∧
    (getRec (rename_session exStA "a" "b" 5).1.meta "b").profile_name = none ∧
    (getRec (rename_session exStA "a" "b" 5).1.meta "b").last_attached = some 5 := by
  have h := (rename_session_spec exStA "a" "b" 5).2.2.2 exRecA
    (by decide) (by decide) (by decide) (by decide) (by decide)
  exact ⟨h.1, by rw [h.2.2.2.2.1]; rfl, h.2.2.2.2.2.2.1⟩

/-- C6 counterexample: session `a` has `created = 0`; renaming it to `b`
at time 5 succeeds, removes the record under `a`, and the record that now
holds this same session's metadata (under `b`) carries `created = 5`:
the rename overwrote the session's original creation timestamp. -/
theorem created_not_preserved_by_rename :
    (getRec exStA.meta "a").created = some 0 ∧
    (rename_session exStA "a" "b" 5).2 = true ∧
    storeLookup (rename_session exStA "a" "b" 5).1.meta "a" = none ∧
    (getRec (rename_session exStA "a" "b" 5).1.meta "b").created = some 5 := by
  decide

/-- C6 (amended): `created` is write-once per name, not per session:
`set` on an existing record preserves it, `set_note` preserves it, a
successful attach preserves it, and `set` on an absent name writes it for
the first time; but `rename` performs a fresh `set` under the new name,
so when no record exists under the new name the moved record's `created`
is the rename time — the session's original value does not survive. -/
theorem created_write_once_per_name (s : Store) (st : SKState) (n : String)
    (pn pu : Option String) (now : Int) (r : SessionRecord) :
    (storeLookup s n = some r →
      (getRec (SessionMetadata.set s n pn pu now) n).created = r.created) ∧
    (storeLookup s n = some r →
      (getRec (SessionMetadata.set_note s n pn).1 n).created = r.created) ∧
    (storeLookup s n = none →
      (getRec (SessionMetadata.set s n pn pu now) n).created = some now) ∧
    (storeLookup st.meta n = some r →
      (attach_session st n now).2 = AttachOutcome.multiplexed →
      (getRec (attach_session st n now).1.meta n).created = r.created) := by
  have hset : ∀ (s' : Store), storeLookup s' n = some r →
      ∀ pn' pu' : Option String,
      (getRec (SessionMetadata.set s' n pn' pu' now) n).created = r.created := by
    intro s' hlk pn' pu'
    cases pn' <;> cases pu' <;>
      simp [SessionMetadata.set, hlk, getRec, storeLookup_insert_self]
  refine ⟨fun hlk => hset s hlk pn pu, ?_, ?_, ?_⟩
  · intro hlk
    simp [SessionMetadata.set_note, hlk, getRec, storeLookup_insert_self]
  · intro hlk
    cases pn <;> cases pu <;>
      simp [SessionMetadata.set, hlk, getRec, storeLookup_insert_self, emptyRecord]
  · intro hlk hm
    cases hfind : findHandle st.handles n with
    | none => simp [attach_session, hfind] at hm
    | some h =>
      cases hl : h.live with
      | false => simp [attach_session, hfind, hl] at hm
      | true =>
        have : (attach_session st n now).1.meta =
            SessionMetadata.set st.meta n (getRec st.meta n).profile_name
              (getRec st.meta n).profile_uuid now := by
          simp [attach_session, hfind, hl]
        rw [this]
        exact hset st.meta hlk _ _

theorem created_write_once_per_name_witness :
    (getRec (SessionMetadata.set exStA.meta "a" (some "Dark") none 42) "a").created = some 0 :=
  (created_write_once_per_name exStA.meta exStA "a" (some "Dark") none 42 exRecA).1 (by decide)

/-- The order of the sort key of `list_sessions`: the later element has a
`last_active` that is not larger. -/
def viewGE (a b : SessionView) : Prop := b.last_active ≤ a.last_active

theorem mem_insertByKeyDesc {x y : SessionView} {l : List SessionView} :
    y ∈ insertByKeyDesc x l ↔ y = x ∨ y ∈ l := by
  induction l with
  | nil => simp [insertByKeyDesc]
  | cons z zs ih =>
    by_cases h : z.last_active ≤ x.last_active
    · simp [insertByKeyDesc, h]
    · simp only [insertByKeyDesc, if_neg h, List.mem_cons, ih]
      tauto

theorem perm_insertByKeyDesc (x : SessionView) (l : List SessionView) :
    List.Perm (insertByKeyDesc x l) (x :: l) := by
  induction l with
  | nil => exact List.Perm.refl _
  | cons z zs ih =>
    by_cases h : z.last_active ≤ x.last_active
    · simp [insertByKeyDesc, h]
    · have h1 : List.Perm (z :: insertByKeyDesc x zs) (z :: (x :: zs)) :=
        List.Perm.cons z ih
      have h2 : List.Perm (z :: x :: zs) (x :: z :: zs) := List.Perm.swap x z zs
      simpa [insertByKeyDesc, h] using h1.trans h2

theorem perm_sortViewsDesc (l : List SessionView) : List.Perm (sortViewsDesc l) l := by
  induction l with
  | nil => exact List.Perm.refl _
  | cons x xs ih =>
    exact (perm_insertByKeyDesc x (sortViewsDesc xs)).trans (List.Perm.cons x ih)

theorem pairwise_insertByKeyDesc {x : SessionView} {l : List SessionView}
    (hl : l.Pairwise viewGE) : (insertByKeyDesc x l).Pairwise viewGE := by
  induction l with
  | nil => simp [insertByKeyDesc, viewGE]
  | cons z zs ih =>
    rcases List.pairwise_cons.mp hl with ⟨hz, hzs⟩
    by_cases h : z.last_active ≤ x.last_active
    · have heq : insertByKeyDesc x (z :: zs) = x :: z :: zs := by
        simp [insertByKeyDesc, h]
      rw [heq]
      refine List.pairwise_cons.mpr ⟨?_, hl⟩
      intro b hb
      rcases List.mem_cons.mp hb with rfl | hbs
      · exact h
      · exact le_trans (hz b hbs) h
    · have heq : insertByKeyDesc x (z :: zs) = z :: insertByKeyDesc x zs := by
        simp [insertByKeyDesc, h]
      rw [heq]
      refine List.pairwise_cons.mpr ⟨?_, ih hzs⟩
      intro b hb
      rcases mem_insertByKeyDesc.mp hb with rfl | hbs
      · exact le_of_lt (lt_of_not_le h)
      · exact hz b hbs

theorem pairwise_sortViewsDesc (l : List SessionView) :
    (sortViewsDesc l).Pairwise viewGE := by
  induction l with
  | nil => simp [sortViewsDesc]
  | cons x xs ih => exact pairwise_insertByKeyDesc ih

/-- C3 counterexample: two alive sessions with equal `last_active`
timestamps, scanned in the order `b`, `a`, are returned in the scan
order `["b", "a"]`, which is not ordered by name on the tie; scanning the
same (name, timestamp) pairs in the order `a`, `b` instead returns
`["a", "b"]`, so the output order is also not the claimed deterministic
function of the (name, timestamp) pairs. -/
theorem list_sessions_tie_not_by_name :
    (list_sessions exStTie false).1.map SessionView.name = ["b", "a"] ∧
    specOrderedByTimeThenName (list_sessions exStTie false).1 = false ∧
    (list_sessions exStTie2 false).1.map SessionView.name = ["a", "b"] := by
  decide

/-- C3 (amended): `list_sessions` returns exactly the alive sessions
(a permutation of the alive views), ordered descending by `last_active`;
Python's sort is stable, so equal timestamps keep directory-scan order
rather than being reordered by name. -/
theorem list_sessions_sorted_desc (st : SKState) (cd : Bool) :
    ((list_sessions st cd).1).Pairwise viewGE ∧
    List.Perm ((list_sessions st cd).1) ((liveHandles st.handles).map (mkView st)) := by
  have h1 : (list_sessions st cd).1 =
      sortViewsDesc ((liveHandles st.handles).map (mkView st)) := by
    cases cd <;> simp [list_sessions]
  rw [h1]
  exact ⟨pairwise_sortViewsDesc _, perm_sortViewsDesc _⟩

theorem liveHandles_sublist (hs : List SockHandle) : List.Sublist (liveHandles hs) hs := by
  induction hs with
  | nil => simp [liveHandles]
  | cons k rest ih =>
    by_cases hk : k.live = true
    · simpa [liveHandles, hk] using List.Sublist.cons₂ k ih
    · simpa [liveHandles, hk] using List.Sublist.cons k ih

theorem mem_liveHandles {h : SockHandle} {hs : List SockHandle} :
    h ∈ liveHandles hs ↔ h ∈ hs ∧ h.live = true := by
  induction hs with
  | nil => simp [liveHandles]
  | cons k rest ih =>
    by_cases hk : k.live = true
    · have heq : liveHandles (k :: rest) = k :: liveHandles rest := by
        simp [liveHandles, hk]
      rw [heq]
      simp only [List.mem_cons, ih]
      constructor
      · rintro (rfl | ⟨hm, hl⟩)
        · exact ⟨Or.inl rfl, hk⟩
        · exact ⟨Or.inr hm, hl⟩
      · rintro ⟨(rfl | hm), hl⟩
        · exact Or.inl rfl
        · exact Or.inr ⟨hm, hl⟩
    · have heq : liveHandles (k :: rest) = liveHandles rest := by
        simp [liveHandles, hk]
      rw [heq, ih]
      simp only [List.mem_cons]
      constructor
      · rintro ⟨hm, hl⟩
        exact ⟨Or.inr hm, hl⟩
      · rintro ⟨(rfl | hm), hl⟩
        · exact absurd hl hk
        · exact ⟨hm, hl⟩

theorem list_sessions_fst (st : SKState) (cd : Bool) :
    (list_sessions st cd).1 = sortViewsDesc ((liveHandles st.handles).map (mkView st)) := by
  cases cd <;> simp [list_sessions]

theorem mem_views {st : SKState} {cd : Bool} {v : SessionView}
    (hv : v ∈ (list_sessions st cd).1) :
    ∃ h, h ∈ st.handles ∧ h.live = true ∧ v = mkView st h := by
  rw [list_sessions_fst] at hv
  have hv2 : v ∈ (liveHandles st.handles).map (mkView st) :=
    (perm_sortViewsDesc _).mem_iff.mp hv
  obtain ⟨h, hm, hveq⟩ := List.mem_map.mp hv2
  obtain ⟨hmem, hlive⟩ := mem_liveHandles.mp hm
  exact ⟨h, hmem, hlive, hveq.symm⟩

theorem views_names_nodup {st : SKState}
    (hnd : (st.handles.map SockHandle.name).Nodup) :
    ((list_sessions st false).1.map SessionView.name).Nodup := by
  have hperm : List.Perm ((list_sessions st false).1.map SessionView.name)
      (((liveHandles st.handles).map (mkView st)).map SessionView.name) := by
    rw [list_sessions_fst]
    exact (perm_sortViewsDesc _).map _
  have h2 : ((liveHandles st.handles).map (mkView st)).map SessionView.name =
      (liveHandles st.handles).map SockHandle.name := by
    rw [List.map_map]
    rfl
  have h3 : ((liveHandles st.handles).map SockHandle.name).Nodup :=
    hnd.sublist ((liveHandles_sublist st.handles).map SockHandle.name)
  exact hperm.nodup_iff.mpr (h2 ▸ h3)

theorem mem_removeHandle {hd : SockHandle} {hs : List SockHandle} {n : String}
    (h : hd ∈ hs) (hne : hd.name ≠ n) : hd ∈ removeHandle hs n := by
  induction hs with
  | nil => simp at h
  | cons k rest ih =>
    rcases List.mem_cons.mp h with rfl | hrest
    · simp [removeHandle, hne]
    · by_cases hk : k.name = n <;> simp [removeHandle, hk, ih hrest]

theorem kill_session_preserves_other {st : SKState} {n : String} {hd : SockHandle}
    (h : hd ∈ st.handles) (hne : hd.name ≠ n) : hd ∈ (kill_session st n).1.handles := by
  by_cases hf : (findHandle st.handles n).isSome = true
  · simpa [kill_session, hf] using mem_removeHandle h hne
  · simpa [kill_session, hf] using h

theorem kill_session_meta_other {st : SKState} {m n : String} (h : n ≠ m) :
    getRec (kill_session st m).1.meta n = getRec st.meta n := by
  by_cases hf : (findHandle st.handles m).isSome = true
  · simp [kill_session, hf, getRec, SessionMetadata.remove, storeLookup_remove_other h]
  · simp [kill_session, hf]

theorem killGo_preserves {hd : SockHandle} :
    ∀ (l : List String) (st : SKState), hd ∈ st.handles → (∀ n ∈ l, n ≠ hd.name) →
      hd ∈ (killGo l st).1.handles := by
  intro l
  induction l with
  | nil =>
    intro st h _
    simpa [killGo] using h
  | cons n rest ih =>
    intro st h hl
    have h1 : hd ∈ (kill_session st n).1.handles :=
      kill_session_preserves_other h
        (fun hc => hl n (List.mem_cons_self n rest) hc.symm)
    have h2 := ih (kill_session st n).1 h1 (fun m hm => hl m (List.mem_cons_of_mem n hm))
    simpa [killGo] using h2

/-- C10: the bulk kills enumerate with `clean_dead=False`, which yields
only alive sessions and reaps nothing, so a handle that exists but probed
dead is never deleted by `kill --all` or by a pattern kill: it is still
present in the socket directory afterwards. -/
theorem bulk_kill_spares_dead (st : SKState) (hd : SockHandle) (pat : String → Bool)
    (hnd : (st.handles.map SockHandle.name).Nodup)
    (hmem : hd ∈ st.handles) (hdead : hd.live = false) :
    hd ∈ (kill_all_sessions st).1.handles ∧
    hd ∈ (kill_sessions_by_pattern st pat).1.handles := by
  have hnames : ∀ n ∈ (list_sessions st false).1.map SessionView.name, n ≠ hd.name := by
    intro n hn
    obtain ⟨v, hv, hvn⟩ := List.mem_map.mp hn
    obtain ⟨h, hm, hlive, hveq⟩ := mem_views hv
    intro hcontra
    have hhn : h.name = hd.name := by
      rw [← hcontra, ← hvn, hveq]
      exact rfl
    have hne : h ≠ hd := by
      intro he
      rw [he, hdead] at hlive
      exact Bool.noConfusion hlive
    exact hne (List.inj_on_of_nodup_map hnd hm hmem hhn)
  constructor
  · exact killGo_preserves _ st hmem hnames
  · refine killGo_preserves _ st hmem ?_
    intro n hn
    exact hnames n (List.mem_of_mem_filter hn)

theorem bulk_kill_spares_dead_witness :
    ({ name := "dead1", live := false, mtime := 0 } : SockHandle) ∈
      (kill_all_sessions exStDead).1.handles :=
  (bulk_kill_spares_dead exStDead _ (fun _ => true) (by decide) (by decide) rfl).1

theorem cleanupGo_removed_subset (cutoff : Int) :
    ∀ (l : List SessionView) (st : SKState) (n : String),
      n ∈ (cleanupGo cutoff l st).2 → n ∈ l.map SessionView.name := by
  intro l
  induction l with
  | nil =>
    intro st n h
    simp [cleanupGo] at h
  | cons sv rest ih =>
    intro st n h
    rw [List.map_cons]
    rcases hla : (getRec st.meta sv.name).last_attached with _ | la
    · simp only [cleanupGo, hla] at h
      exact List.mem_cons_of_mem _ (ih st n h)
    · simp only [cleanupGo, hla] at h
      by_cases hlt : la < cutoff
      · rw [if_pos hlt] at h
        rcases List.mem_cons.mp h with rfl | h2
        · exact List.mem_cons_self _ _
        · exact List.mem_cons_of_mem _ (ih _ n h2)
      · rw [if_neg hlt] at h
        exact List.mem_cons_of_mem _ (ih st n h)

theorem cleanupGo_mem_iff (cutoff : Int) :
    ∀ (l : List SessionView) (st : SKState) (sv : SessionView),
      sv ∈ l → (l.map SessionView.name).Nodup →
      (sv.name ∈ (cleanupGo cutoff l st).2 ↔
        ∃ la, (getRec st.meta sv.name).last_attached = some la ∧ la < cutoff) := by
  intro l
  induction l with
  | nil =>
    intro st sv h
    simp at h
  | cons sv0 rest ih =>
    intro st sv hmem hnd
    rw [List.map_cons, List.nodup_cons] at hnd
    rcases List.mem_cons.mp hmem with rfl | hrest
    · rcases hla : (getRec st.meta sv.name).last_attached with _ | la
      · simp only [cleanupGo, hla]
        constructor
        · intro h
          exact absurd (cleanupGo_removed_subset cutoff rest st sv.name h) hnd.1
        · rintro ⟨la, hla2, _⟩
          exact Option.noConfusion hla2
      · simp only [cleanupGo, hla]
        by_cases hlt : la < cutoff
        · rw [if_pos hlt]
          constructor
          · intro _
            exact ⟨la, rfl, hlt⟩
          · intro _
            exact List.mem_cons_self _ _
        · rw [if_neg hlt]
          constructor
          · intro h
            exact absurd (cleanupGo_removed_subset cutoff rest st sv.name h) hnd.1
          · rintro ⟨la2, hla2, hlt2⟩
            cases Option.some.inj hla2
            exact absurd hlt2 hlt
    · have hne : sv0.name ≠ sv.name := by
        intro he
        exact hnd.1 (he ▸ List.mem_map_of_mem SessionView.name hrest)
      rcases hla : (getRec st.meta sv0.name).last_attached with _ | la
      · simp only [cleanupGo, hla]
        exact ih st sv hrest hnd.2
      · simp only [cleanupGo, hla]
        by_cases hlt : la < cutoff
        · rw [if_pos hlt]
          have hagree : getRec (kill_session st sv0.name).1.meta sv.name =
              getRec st.meta sv.name := kill_session_meta_other (Ne.symm hne)
          have hih := ih (kill_session st sv0.name).1 sv hrest hnd.2
          rw [hagree] at hih
          rw [List.mem_cons]
          constructor
          · rintro (he | h2)
            · exact absurd he.symm hne
            · exact hih.mp h2
          · intro hr
            exact Or.inr (hih.mpr hr)
        · rw [if_neg hlt]
          exact ih st sv hrest hnd.2

/-- C4: `cleanup_idle_sessions` kills an enumerated session exactly when
its metadata `last_attached` exists and is strictly earlier than the
cutoff `now - max_idle_days`; a session whose `last_attached` equals the
cutoff is kept, and a session without `last_attached` is never removed. -/
theorem cleanup_idle_strict_cutoff (st : SKState) (now days : Int) (sv : SessionView)
    (hnd : (st.handles.map SockHandle.name).Nodup)
    (hmem : sv ∈ (list_sessions st false).1) :
    sv.name ∈ (cleanup_idle_sessions st now days).2 ↔
      ∃ la, (getRec st.meta sv.name).last_attached = some la ∧ la < now - days * 86400 :=
  cleanupGo_mem_iff _ _ st sv hmem (views_names_nodup hnd)

theorem cleanup_idle_strict_cutoff_witness :
    "a" ∈ (cleanup_idle_sessions exStA 1000000 1).2 :=
  (cleanup_idle_strict_cutoff exStA 1000000 1
    (mkView exStA { name := "a", live := true, mtime := 0 })
    (by decide) (by decide)).mpr ⟨0, by decide, by decide⟩
